import Mathlib

/-!
# Verification of `stackup.py` (hammer-tech metal stackup rule engine)

A shallow embedding of the data structures and geometric rule calculations of
`stackup.py`: the width/spacing rule table, the spacing-for-width and
spacing-for-pitch queries, and the thin-wide-thin (TWT) / thin-wide-wide-thin
(TWWT) track geometry solvers.

Real-valued quantities of the Python source are modelled as exact rationals
(`ℚ`); Python's `round` (round half to even) and `int` (truncation toward
zero) are modelled exactly on `ℚ`.  Operations whose Python counterpart can
raise (`assert` failures, indexing `ws[0]` into an empty table) return
`Option`, with `none` for the raising executions.
-/

/-- Manufacturing grid unit: `Metal.grid_unit` always returns `0.001`. -/
def gridUnit : ℚ := 1 / 1000

/-- Round to the nearest integer with ties going to the even integer:
the behaviour of Python's built-in `round` on an exact value. -/
def roundHalfToEven (q : ℚ) : ℤ :=
  if q - ⌊q⌋ < 1 / 2 then ⌊q⌋
  else if 1 / 2 < q - ⌊q⌋ then ⌊q⌋ + 1
  else if ⌊q⌋ % 2 = 0 then ⌊q⌋ else ⌊q⌋ + 1

/-- Python `int(...)`: truncation toward zero, on an exact rational. -/
def truncInt (q : ℚ) : ℤ := if 0 ≤ q then ⌊q⌋ else ⌈q⌉

/-- Model of the `RoutingDirection` enum from stackup.py. -/
inductive RoutingDirection where
  | Vertical
  | Horizontal
  | Redistribution
  deriving DecidableEq

/-- Model of `RoutingDirection.from_str`: the `__mapping` dictionary lookup; a missing
key raises `ValueError`, modelled by `none`. -/
def RoutingDirection.from_str (input_str : String) : Option RoutingDirection :=
  if input_str = "vertical" then some RoutingDirection.Vertical
  else if input_str = "horizontal" then some RoutingDirection.Horizontal
  else if input_str = "redistribution" then some RoutingDirection.Redistribution
  else none

/-- Model of `RoutingDirection.__str__`: reverse lookup of `__mapping`. -/
def RoutingDirection.toStr : RoutingDirection → String
  | RoutingDirection.Vertical => "vertical"
  | RoutingDirection.Horizontal => "horizontal"
  | RoutingDirection.Redistribution => "redistribution"

/-- Model of `RoutingDirection.opposite`. -/
def RoutingDirection.opposite : RoutingDirection → RoutingDirection
  | RoutingDirection.Vertical => RoutingDirection.Horizontal
  | RoutingDirection.Horizontal => RoutingDirection.Vertical
  | d => d

/-- Model of `WidthSpacingTuple`: one entry of the piecewise width -> spacing rule. -/
structure WidthSpacingTuple where
  width_at_least : ℚ
  min_spacing : ℚ
  deriving DecidableEq

/-- Model of `WidthSpacingTuple.from_setting`: reads the two fields and asserts
`width_at_least >= 0` and `min_spacing > 0`; an assertion failure is `none`. -/
def WidthSpacingTuple.from_setting (d : ℚ × ℚ) : Option WidthSpacingTuple :=
  if 0 ≤ d.1 ∧ 0 < d.2 then some ⟨d.1, d.2⟩ else none

/-- The sort key used by `WidthSpacingTuple.from_list`
(`key=lambda x: x.width_at_least`, under Python's stable sort). -/
def wstLE (a b : WidthSpacingTuple) : Bool :=
  decide (a.width_at_least ≤ b.width_at_least)

/-- The `map(lambda x: WidthSpacingTuple.from_setting(x), l)` step of
`from_list`: converts every raw entry, failing if any entry fails. -/
def convertAll : List (ℚ × ℚ) → Option (List WidthSpacingTuple)
  | [] => some []
  | d :: rest =>
    match WidthSpacingTuple.from_setting d, convertAll rest with
    | some w, some ws => some (w :: ws)
    | _, _ => none

/-- The monotonicity scan of `from_list`: starting from `s = 0.0`, checks
`wst.min_spacing >= s` for each entry, updating `s`. -/
def checkMonoSpacing (s : ℚ) : List WidthSpacingTuple → Bool
  | [] => true
  | w :: rest => if s ≤ w.min_spacing then checkMonoSpacing w.min_spacing rest else false

/-- Model of `WidthSpacingTuple.from_list`: convert each entry, sort ascending by
`width_at_least` (stably, like Python's `sorted`), then check that
`min_spacing` is non-decreasing.  Any assertion failure is `none`. -/
def WidthSpacingTuple.from_list (l : List (ℚ × ℚ)) : Option (List WidthSpacingTuple) :=
  match convertAll l with
  | none => none
  | some entries =>
    let out := entries.mergeSort wstLE
    if checkMonoSpacing 0 out then some out else none

/-- Model of `Metal`: a metal layer plus its width/spacing rule table. -/
structure Metal where
  name : String
  index : ℤ
  direction : RoutingDirection
  min_width : ℚ
  pitch : ℚ
  offset : ℚ
  power_strap_widths_and_spacings : List WidthSpacingTuple
  deriving DecidableEq

/-- Model of `Metal.grid_unit`: the manufacturing grid (constant `0.001`). -/
def Metal.grid_unit (_ : Metal) : ℚ := gridUnit

/-- Model of `Metal.snap`: `float(round(num / self.grid_unit)) * self.grid_unit`. -/
def Metal.snap (m : Metal) (num : ℚ) : ℚ :=
  (roundHalfToEven (num / m.grid_unit) : ℚ) * m.grid_unit

/-- The scan loop of `Metal.get_spacing_for_width`: accumulate the max
`min_spacing` over entries with `width_at_least <= width`, early-exiting at
the first entry whose threshold exceeds `width`. -/
def gsfwLoop (width : ℚ) : List WidthSpacingTuple → ℚ → ℚ
  | [], spacing => spacing
  | wst :: rest, spacing =>
    if wst.width_at_least ≤ width then gsfwLoop width rest (max spacing wst.min_spacing)
    else spacing

/-- Model of `Metal.get_spacing_for_width`. -/
def Metal.get_spacing_for_width (m : Metal) (width : ℚ) : ℚ :=
  gsfwLoop width m.power_strap_widths_and_spacings 0

/-- Adjacent pairs `zip(ws[:-1], ws[1:])`. -/
def adjPairs {α : Type} (l : List α) : List (α × α) := l.zip l.tail

/-- The pair loop of `Metal.min_spacing_from_pitch`. -/
def msfpLoop (m : Metal) (pitch : ℚ) :
    List (WidthSpacingTuple × WidthSpacingTuple) → ℚ → ℚ
  | [], spacing => spacing
  | (first, second) :: rest, spacing =>
    if second.min_spacing + second.width_at_least ≤ pitch then
      msfpLoop m pitch rest second.min_spacing
    else if first.min_spacing + second.width_at_least ≤ pitch then
      msfpLoop m pitch rest
        (m.snap (pitch - m.snap (second.width_at_least - m.grid_unit * 2)))
    else msfpLoop m pitch rest spacing

/-- Model of `Metal.min_spacing_from_pitch`: `ws[0]` on an empty table raises
(`none`); otherwise scan adjacent entry pairs. -/
def Metal.min_spacing_from_pitch (m : Metal) (pitch : ℚ) : Option ℚ :=
  match m.power_strap_widths_and_spacings with
  | [] => none
  | w0 :: _ =>
    some (msfpLoop m pitch (adjPairs m.power_strap_widths_and_spacings) w0.min_spacing)

/-- The width pinned by the width-constrained branch of
`get_width_spacing_start_twt`: `second.width_at_least` snapped down to the
nearest even grid count (two grid units below an even threshold, one below
an odd one). -/
def twtPinnedWidth (m : Metal) (second : WidthSpacingTuple) : ℚ :=
  if truncInt (second.width_at_least / m.grid_unit) % 2 = 0
  then m.snap (second.width_at_least - m.grid_unit * 2)
  else m.snap (second.width_at_least - m.grid_unit)

/-- The pair loop of `Metal.get_width_spacing_start_twt`, carrying the
current `(width, spacing)`. -/
def twtLoop (m : Metal) (s2w : ℚ) :
    List (WidthSpacingTuple × WidthSpacingTuple) → ℚ × ℚ → ℚ × ℚ
  | [], acc => acc
  | (first, second) :: rest, acc =>
    if second.min_spacing * 2 + second.width_at_least ≤ s2w then
      twtLoop m s2w rest
        (m.snap (s2w - second.min_spacing * 2), second.min_spacing)
    else if first.min_spacing * 2 + second.width_at_least ≤ s2w then
      twtLoop m s2w rest
        (twtPinnedWidth m second, m.snap ((s2w - twtPinnedWidth m second) / 2))
    else twtLoop m s2w rest acc

/-- Model of `Metal.get_width_spacing_start_twt`: the thin-wide-thin solver.  `none`
models a raising execution: empty table (`ws[0]`), or a failure of one of
the three `assert` statements (even `s2w`, even `min_width`, even `width`). -/
def Metal.get_width_spacing_start_twt (m : Metal) (tracks : ℤ) : Option (ℚ × ℚ × ℚ) :=
  match m.power_strap_widths_and_spacings with
  | [] => none
  | w0 :: _ =>
    let s2w := m.snap (((tracks : ℚ) + 1) * m.pitch - m.min_width)
    if truncInt (m.snap (s2w / m.grid_unit)) % 2 = 0 then
      let p := twtLoop m s2w (adjPairs m.power_strap_widths_and_spacings)
        (m.snap (s2w - w0.min_spacing * 2), w0.min_spacing)
      if truncInt (m.snap (m.min_width / m.grid_unit)) % 2 = 0 then
        if truncInt (m.snap (p.1 / m.grid_unit)) % 2 = 0 then
          some (p.1, p.2, m.snap (m.min_width / 2 + p.2))
        else none
      else none
    else none

/-- The pair loop of `Metal.get_width_spacing_start_twwt`. -/
def twwtLoop (m : Metal) (s3w2 : ℚ) :
    List (WidthSpacingTuple × WidthSpacingTuple) → ℚ × ℚ → ℚ × ℚ
  | [], acc => acc
  | (first, second) :: rest, acc =>
    if second.min_spacing * 3 + second.width_at_least * 2 ≤ s3w2 then
      twwtLoop m s3w2 rest
        (m.snap ((s3w2 - second.min_spacing * 3) / 2), second.min_spacing)
    else if first.min_spacing * 3 + second.width_at_least * 2 ≤ s3w2 then
      twwtLoop m s3w2 rest
        (m.snap (second.width_at_least - m.grid_unit * 1),
          m.snap ((s3w2 - m.snap (second.width_at_least - m.grid_unit * 1) * 2) / 3))
    else twwtLoop m s3w2 rest acc

/-- Model of `Metal.get_width_spacing_start_twwt`: the thin-wide-wide-thin solver.
`none` models a raising execution: empty table, or failure of the
`min_width` parity assert.  When `force_even` is set and the computed width
sits on an odd grid count, the width is shrunk and the start grown by one
grid unit. -/
def Metal.get_width_spacing_start_twwt (m : Metal) (tracks : ℤ) (force_even : Bool) :
    Option (ℚ × ℚ × ℚ) :=
  match m.power_strap_widths_and_spacings with
  | [] => none
  | w0 :: _ =>
    let s3w2 := m.snap ((2 * (tracks : ℚ) + 1) * m.pitch - m.min_width)
    let p := twwtLoop m s3w2 (adjPairs m.power_strap_widths_and_spacings)
      (m.snap ((s3w2 - w0.min_spacing * 3) / 2), w0.min_spacing)
    if truncInt (m.min_width / m.grid_unit) % 2 = 0 then
      let start := m.snap (m.min_width / 2 + p.2)
      if force_even = true ∧ truncInt (p.1 / m.grid_unit) % 2 = 1 then
        some (m.snap (p.1 - m.grid_unit), p.2, m.snap (start + m.grid_unit))
      else
        some (p.1, p.2, start)
    else none

/-- Error kind for operations the source acknowledges as missing. -/
inductive StackupError where
  | notImplemented
  deriving DecidableEq

/-- Modelled from the spec: stackup.py stops at a TODO comment
(`# TODO implement M W X* W M style wires ...`, line 244) and does not ship a
Wide-Wide-Wide (three equal-width neighbours) track-consumption solver; per
spec section 4.7 the query must fail with `NotImplemented` instead of
returning geometry. -/
def Metal.get_width_spacing_start_www (_ : Metal) (_ : ℤ) :
    Except StackupError (ℚ × ℚ × ℚ) :=
  Except.error StackupError.notImplemented

/-- A valid rule table: non-empty, entries well-formed, sorted ascending by
`width_at_least`, with non-decreasing `min_spacing` (the state
`WidthSpacingTuple.from_list` guarantees). -/
def validTable (l : List WidthSpacingTuple) : Prop :=
  l ≠ [] ∧ (∀ w ∈ l, 0 ≤ w.width_at_least ∧ 0 < w.min_spacing) ∧
    List.Sorted (fun a b : WidthSpacingTuple => a.width_at_least ≤ b.width_at_least) l ∧
    List.Chain' (fun a b : WidthSpacingTuple => a.min_spacing ≤ b.min_spacing) l

/-- A length lies on the manufacturing grid. -/
def onGrid (q : ℚ) : Prop := ∃ k : ℤ, q = (k : ℚ) * gridUnit

/-- A length is an even number of grid units. -/
def evenGrid (q : ℚ) : Prop := ∃ k : ℤ, q = ((2 * k : ℤ) : ℚ) * gridUnit

/-- A length is an odd number of grid units. -/
def oddGrid (q : ℚ) : Prop := ∃ k : ℤ, q = ((2 * k + 1 : ℤ) : ℚ) * gridUnit

/-- The example metal of spec section 8: rule table `[(0,1),(4,2),(7,3)]`.
(`min_width`, `pitch`, `offset` are irrelevant to `min_spacing_from_pitch`.) -/
def metalA : Metal :=
  ⟨"M1", 1, RoutingDirection.Vertical, 1/10, 1/5, 0,
    [⟨0, 1⟩, ⟨4, 2⟩, ⟨7, 3⟩]⟩

/-- The example metal of spec section 8 for the TWT solver:
`min_width = 0.1`, `pitch = 0.2`, table `[(0, 0.05)]`. -/
def metalB : Metal :=
  ⟨"M2", 2, RoutingDirection.Horizontal, 1/10, 1/5, 0, [⟨0, 1/20⟩]⟩

/-- A metal whose (valid) table has a `min_spacing` of `0.0509`, which does
not lie on the manufacturing grid. -/
def metalC : Metal :=
  ⟨"M3", 3, RoutingDirection.Vertical, 1/10, 1/5, 0, [⟨0, 509/10000⟩]⟩

/-! ## Basic facts about the grid and `snap` -/

theorem gridUnit_pos : (0 : ℚ) < gridUnit := by norm_num [gridUnit]

theorem gridUnit_ne_zero : gridUnit ≠ 0 := ne_of_gt gridUnit_pos

theorem roundHalfToEven_intCast (k : ℤ) : roundHalfToEven (k : ℚ) = k := by
  unfold roundHalfToEven
  rw [Int.floor_intCast]
  norm_num

theorem roundHalfToEven_bounds (q : ℚ) :
    q - 1 / 2 ≤ (roundHalfToEven q : ℚ) ∧ (roundHalfToEven q : ℚ) ≤ q + 1 / 2 := by
  have h1 : ((⌊q⌋ : ℤ) : ℚ) ≤ q := Int.floor_le q
  have h2 : q < ((⌊q⌋ : ℤ) : ℚ) + 1 := Int.lt_floor_add_one q
  unfold roundHalfToEven
  split
  · rename_i h
    constructor <;> linarith
  · rename_i h
    split
    · rename_i h'
      constructor <;> push_cast <;> linarith
    · rename_i h'
      have he : q - ((⌊q⌋ : ℤ) : ℚ) = 1 / 2 := by linarith [not_lt.mp h, not_lt.mp h']
      split <;> constructor <;> push_cast <;> linarith

theorem truncInt_intCast (k : ℤ) : truncInt (k : ℚ) = k := by
  unfold truncInt
  split <;> simp

theorem Metal.grid_unit_eq (m : Metal) : m.grid_unit = gridUnit := rfl

theorem onGrid_snap (m : Metal) (q : ℚ) : onGrid (m.snap q) :=
  ⟨roundHalfToEven (q / m.grid_unit), rfl⟩

theorem Metal.snap_onGrid (m : Metal) {q : ℚ} (h : onGrid q) : m.snap q = q := by
  obtain ⟨k, rfl⟩ := h
  unfold Metal.snap
  rw [Metal.grid_unit_eq, mul_div_cancel_right₀ _ gridUnit_ne_zero, roundHalfToEven_intCast]

theorem Metal.snap_bounds (m : Metal) (q : ℚ) :
    q - gridUnit / 2 ≤ m.snap q ∧ m.snap q ≤ q + gridUnit / 2 := by
  have hb := roundHalfToEven_bounds (q / m.grid_unit)
  have he : (q / gridUnit) * gridUnit = q := div_mul_cancel₀ q gridUnit_ne_zero
  unfold Metal.snap
  rw [Metal.grid_unit_eq] at *
  have hg := gridUnit_pos
  constructor
  · have := mul_le_mul_of_nonneg_right hb.1 (le_of_lt hg)
    rw [sub_mul, he] at this
    linarith
  · have := mul_le_mul_of_nonneg_right hb.2 (le_of_lt hg)
    rw [add_mul, he] at this
    linarith

theorem onGrid_add {a b : ℚ} (ha : onGrid a) (hb : onGrid b) : onGrid (a + b) := by
  obtain ⟨j, rfl⟩ := ha
  obtain ⟨k, rfl⟩ := hb
  exact ⟨j + k, by push_cast; ring⟩

theorem onGrid_sub {a b : ℚ} (ha : onGrid a) (hb : onGrid b) : onGrid (a - b) := by
  obtain ⟨j, rfl⟩ := ha
  obtain ⟨k, rfl⟩ := hb
  exact ⟨j - k, by push_cast; ring⟩

theorem onGrid_gridUnit : onGrid gridUnit := ⟨1, by norm_num⟩

theorem onGrid_div_gridUnit {a : ℚ} (k : ℤ) (ha : a = (k : ℚ) * gridUnit) :
    a / gridUnit = (k : ℚ) := by
  rw [ha, mul_div_cancel_right₀ _ gridUnit_ne_zero]

/-! ## Facts about tables and the scan loops -/

theorem adjPairs_mem {α : Type} {l : List α} {p : α × α} (h : p ∈ adjPairs l) :
    p.1 ∈ l ∧ p.2 ∈ l := by
  unfold adjPairs at h
  obtain ⟨a, b⟩ := p
  have := List.of_mem_zip h
  exact ⟨this.1, List.mem_of_mem_tail this.2⟩

theorem chain_ms_le {h0 : WidthSpacingTuple} {l : List WidthSpacingTuple}
    (hc : List.Chain (fun a b => a.min_spacing ≤ b.min_spacing) h0 l) :
    ∀ x ∈ l, h0.min_spacing ≤ x.min_spacing := by
  induction l generalizing h0 with
  | nil => simp
  | cons a t ih =>
    rcases List.chain_cons.mp hc with ⟨hab, hat⟩
    intro x hx
    rcases List.mem_cons.mp hx with rfl | hx
    · exact hab
    · exact le_trans hab (ih hat x hx)

theorem validTable_head_le {w0 : WidthSpacingTuple} {rest : List WidthSpacingTuple}
    (h : validTable (w0 :: rest)) :
    ∀ x ∈ w0 :: rest, w0.min_spacing ≤ x.min_spacing := by
  have hc : List.Chain (fun a b : WidthSpacingTuple => a.min_spacing ≤ b.min_spacing) w0 rest :=
    h.2.2.2
  intro x hx
  rcases List.mem_cons.mp hx with rfl | hx
  · exact le_refl _
  · exact chain_ms_le hc x hx

theorem msfpLoop_lower (m : Metal) (pitch base : ℚ)
    (pairs : List (WidthSpacingTuple × WidthSpacingTuple))
    (hpairs : ∀ p ∈ pairs, base ≤ p.1.min_spacing ∧ base ≤ p.2.min_spacing) :
    ∀ acc, base ≤ acc → base ≤ msfpLoop m pitch pairs acc := by
  induction pairs with
  | nil => intro acc h; simpa [msfpLoop] using h
  | cons p rest ih =>
    intro acc hacc
    obtain ⟨first, second⟩ := p
    have hp := hpairs (first, second) (List.mem_cons_self _ _)
    have hrest := fun q hq => hpairs q (List.mem_cons_of_mem _ hq)
    simp only [msfpLoop]
    split
    · exact ih hrest _ hp.2
    · split
      · rename_i hno hyes
        apply ih hrest
        have hb1 := m.snap_bounds (second.width_at_least - m.grid_unit * 2)
        have hb2 := m.snap_bounds (pitch - m.snap (second.width_at_least - m.grid_unit * 2))
        have hg := gridUnit_pos
        rw [Metal.grid_unit_eq] at *
        linarith [hb1.2, hb2.1, hp.1]
      · exact ih hrest _ hacc

theorem gsfwLoop_le_self (width : ℚ) (l : List WidthSpacingTuple) :
    ∀ acc, acc ≤ gsfwLoop width l acc := by
  induction l with
  | nil => intro acc; simp [gsfwLoop]
  | cons w rest ih =>
    intro acc
    simp only [gsfwLoop]
    split
    · exact le_trans (le_max_left _ _) (ih _)
    · exact le_refl _

theorem gsfwLoop_mono {w1 w2 : ℚ} (h : w1 ≤ w2) (l : List WidthSpacingTuple) :
    ∀ acc, gsfwLoop w1 l acc ≤ gsfwLoop w2 l acc := by
  induction l with
  | nil => intro acc; simp [gsfwLoop]
  | cons w rest ih =>
    intro acc
    simp only [gsfwLoop]
    by_cases h1 : w.width_at_least ≤ w1
    · rw [if_pos h1, if_pos (le_trans h1 h)]
      exact ih _
    · rw [if_neg h1]
      by_cases h2 : w.width_at_least ≤ w2
      · rw [if_pos h2]
        exact le_trans (le_max_left _ _) (gsfwLoop_le_self _ _ _)
      · rw [if_neg h2]

/-! ## Grid facts about the track-geometry loops -/

theorem onGrid_intCast (j : ℤ) : onGrid (j : ℚ) :=
  ⟨1000 * j, by push_cast [gridUnit]; ring⟩

theorem evenGrid_of_assert {m : Metal} {q : ℚ} (hq : onGrid q)
    (h : truncInt (m.snap (q / m.grid_unit)) % 2 = 0) : evenGrid q := by
  obtain ⟨k, rfl⟩ := hq
  rw [Metal.grid_unit_eq, mul_div_cancel_right₀ _ gridUnit_ne_zero,
    Metal.snap_onGrid m (onGrid_intCast k), truncInt_intCast] at h
  obtain ⟨j, hj⟩ := (Int.even_iff).mpr h
  exact ⟨j, by rw [hj]; push_cast; ring⟩

theorem oddGrid_truncInt {m : Metal} {q : ℚ} {k : ℤ} (hq : q = (k : ℚ) * gridUnit) :
    truncInt (q / m.grid_unit) = k := by
  rw [hq, Metal.grid_unit_eq, mul_div_cancel_right₀ _ gridUnit_ne_zero, truncInt_intCast]

theorem twtLoop_inv (m : Metal) (s2w : ℚ)
    (pairs : List (WidthSpacingTuple × WidthSpacingTuple))
    (hpairs : ∀ p ∈ pairs, onGrid p.2.min_spacing) :
    ∀ acc : ℚ × ℚ,
      onGrid acc.1 ∧ onGrid acc.2 ∧
        (acc.1 = m.snap (s2w - acc.2 * 2) ∨ acc.2 = m.snap ((s2w - acc.1) / 2)) →
      onGrid (twtLoop m s2w pairs acc).1 ∧ onGrid (twtLoop m s2w pairs acc).2 ∧
        ((twtLoop m s2w pairs acc).1 = m.snap (s2w - (twtLoop m s2w pairs acc).2 * 2) ∨
          (twtLoop m s2w pairs acc).2 = m.snap ((s2w - (twtLoop m s2w pairs acc).1) / 2)) := by
  induction pairs with
  | nil => intro acc h; simpa [twtLoop] using h
  | cons p rest ih =>
    intro acc hacc
    obtain ⟨first, second⟩ := p
    have hp := hpairs (first, second) (List.mem_cons_self _ _)
    have hrest := fun q hq => hpairs q (List.mem_cons_of_mem _ hq)
    simp only [twtLoop]
    split
    · exact ih hrest _ ⟨onGrid_snap _ _, hp, Or.inl rfl⟩
    · split
      · refine ih hrest _ ⟨?_, onGrid_snap _ _, Or.inr rfl⟩
        unfold twtPinnedWidth
        split <;> exact onGrid_snap _ _
      · exact ih hrest _ hacc

theorem twwtLoop_width_onGrid (m : Metal) (s3w2 : ℚ)
    (pairs : List (WidthSpacingTuple × WidthSpacingTuple)) :
    ∀ acc : ℚ × ℚ, onGrid acc.1 → onGrid (twwtLoop m s3w2 pairs acc).1 := by
  induction pairs with
  | nil => intro acc h; simpa [twwtLoop] using h
  | cons p rest ih =>
    intro acc hacc
    obtain ⟨first, second⟩ := p
    simp only [twwtLoop]
    split
    · exact ih _ (onGrid_snap _ _)
    · split
      · exact ih _ (onGrid_snap _ _)
      · exact ih _ hacc

/-! ## Claim theorems -/

/-- C8: for every `RoutingDirection` `d`, `from_str (toStr d) = d` and
`opposite (opposite d) = d`, and `from_str`/`toStr` are exact mutual
inverses over the closed set {"vertical", "horizontal", "redistribution"}. -/
theorem routing_direction_codec :
    (∀ d : RoutingDirection, RoutingDirection.from_str d.toStr = some d) ∧
    (∀ d : RoutingDirection, d.opposite.opposite = d) ∧
    RoutingDirection.from_str "vertical" = some RoutingDirection.Vertical ∧
    RoutingDirection.toStr RoutingDirection.Vertical = "vertical" ∧
    RoutingDirection.from_str "horizontal" = some RoutingDirection.Horizontal ∧
    RoutingDirection.toStr RoutingDirection.Horizontal = "horizontal" ∧
    RoutingDirection.from_str "redistribution" = some RoutingDirection.Redistribution ∧
    RoutingDirection.toStr RoutingDirection.Redistribution = "redistribution" := by
  refine ⟨fun d => ?_, fun d => ?_, ?_, ?_, ?_, ?_, ?_, ?_⟩ <;>
    first
      | (cases d <;> rfl)
      | rfl

/-- C5: the Wide-Wide-Wide track-consumption query always fails with
`NotImplemented` and never returns geometry (modelled from the spec; the
source stops at a TODO comment). -/
theorem www_not_implemented (m : Metal) (tracks : ℤ) :
    m.get_width_spacing_start_www tracks = Except.error StackupError.notImplemented := rfl

/-- C1 counterexample: on the table `[(0,1),(4,2),(7,3)]` the code returns
spacing `1.002` (not `1`) at pitch `5.0`, and `2.002` (not `2`) at pitch
`9`: in the width-constrained branch the spacing is `pitch - width`, which
exceeds the entry's `min_spacing` by two grid units. -/
theorem msfp_example_cex :
    metalA.min_spacing_from_pitch 5 = some (501 / 500) ∧ ((501 : ℚ) / 500 ≠ 1) ∧
    metalA.min_spacing_from_pitch 9 = some (1001 / 500) ∧ ((1001 : ℚ) / 500 ≠ 2) := by
  refine ⟨?_, by norm_num, ?_, by norm_num⟩ <;>
    norm_num [Metal.min_spacing_from_pitch, msfpLoop, adjPairs, Metal.snap,
      Metal.grid_unit, gridUnit, roundHalfToEven, truncInt, metalA]

/-- C1 amended: for the table `[(0,1),(4,2),(7,3)]`,
`min_spacing_from_pitch 4.999 = 1`; at pitch `5.0` the width-constrained
branch of the pair `((0,1),(4,2))` gives width `4 - 2*grid_unit` and
spacing `5 - (4 - 2*grid_unit) = 1.002`; at pitch `9` the width-constrained
branch of the pair `((4,2),(7,3))` gives width `7 - 2*grid_unit` and
spacing `9 - (7 - 2*grid_unit) = 2.002`. -/
theorem msfp_example_values :
    metalA.min_spacing_from_pitch (4999 / 1000) = some 1 ∧
    metalA.min_spacing_from_pitch 5 = some (5 - (4 - 2 * gridUnit)) ∧
    metalA.min_spacing_from_pitch 9 = some (9 - (7 - 2 * gridUnit)) := by
  refine ⟨?_, ?_, ?_⟩ <;>
    norm_num [Metal.min_spacing_from_pitch, msfpLoop, adjPairs, Metal.snap,
      Metal.grid_unit, gridUnit, roundHalfToEven, truncInt, metalA]

/-- The spec's example table `[(0,1),(4,2),(7,3)]` is a valid table. -/
theorem metalA_valid : validTable metalA.power_strap_widths_and_spacings := by
  refine ⟨by simp [metalA], ?_, ?_, ?_⟩ <;> norm_num [metalA, List.Sorted]

/-- The singleton table `[(0, 0.05)]` is a valid table. -/
theorem metalB_valid : validTable metalB.power_strap_widths_and_spacings := by
  refine ⟨by simp [metalB], ?_, ?_, ?_⟩ <;> norm_num [metalB, List.Sorted]

/-- The singleton table `[(0, 0.0509)]` is a valid table. -/
theorem metalC_valid : validTable metalC.power_strap_widths_and_spacings := by
  refine ⟨by simp [metalC], ?_, ?_, ?_⟩ <;> norm_num [metalC, List.Sorted]

/-- C6: for every Metal with a valid (sorted, spacing-monotonic) table,
`get_spacing_for_width` is monotone in the width. -/
theorem gsfw_monotone (m : Metal)
    (hv : validTable m.power_strap_widths_and_spacings)
    {w1 w2 : ℚ} (hw : w1 ≤ w2) :
    m.get_spacing_for_width w1 ≤ m.get_spacing_for_width w2 :=
  gsfwLoop_mono hw m.power_strap_widths_and_spacings 0

/-- C6 witness: instantiated on the spec's example table at widths 0.1 and 0.5. -/
theorem gsfw_monotone_witness :
    metalA.get_spacing_for_width (1 / 10) ≤ metalA.get_spacing_for_width (1 / 2) :=
  gsfw_monotone metalA
    metalA_valid (by norm_num)

/-- C7: `get_spacing_for_width` is total (the embedding returns a plain
value, mirroring the raise-free source), and every width strictly below all
`width_at_least` thresholds (in particular below the smallest one) gets
spacing `0`. -/
theorem gsfw_below_thresholds (m : Metal)
    (hv : validTable m.power_strap_widths_and_spacings) (width : ℚ)
    (hb : ∀ e ∈ m.power_strap_widths_and_spacings, width < e.width_at_least) :
    m.get_spacing_for_width width = 0 := by
  obtain ⟨hne, -, -, -⟩ := hv
  unfold Metal.get_spacing_for_width
  cases htbl : m.power_strap_widths_and_spacings with
  | nil => exact absurd htbl hne
  | cons w0 rest =>
    have h0 := hb w0 (htbl ▸ List.mem_cons_self _ _)
    simp only [gsfwLoop]
    rw [if_neg (not_le.mpr h0)]

/-- C7 witness: on the spec's example table (smallest threshold `0`), a
width strictly below every threshold gets spacing `0`. -/
theorem gsfw_below_thresholds_witness : metalA.get_spacing_for_width (-1) = 0 :=
  gsfw_below_thresholds metalA
    metalA_valid (-1)
    (by intro e he; fin_cases he <;> norm_num [metalA])

/-- C10: on a non-empty valid table, `min_spacing_from_pitch` never fails,
and for every pitch (including non-positive ones) the result is at least
the first entry's `min_spacing`, hence strictly positive. -/
theorem msfp_total_and_positive (m : Metal) (w0 : WidthSpacingTuple)
    (rest : List WidthSpacingTuple)
    (htbl : m.power_strap_widths_and_spacings = w0 :: rest)
    (hv : validTable m.power_strap_widths_and_spacings) (pitch : ℚ) :
    ∃ s, m.min_spacing_from_pitch pitch = some s ∧ w0.min_spacing ≤ s ∧ 0 < s := by
  have hvc : validTable (w0 :: rest) := htbl ▸ hv
  have hhead := validTable_head_le hvc
  have hpos : 0 < w0.min_spacing := (hvc.2.1 w0 (List.mem_cons_self _ _)).2
  have hlow : w0.min_spacing ≤
      msfpLoop m pitch (adjPairs (w0 :: rest)) w0.min_spacing := by
    refine msfpLoop_lower m pitch w0.min_spacing _ ?_ _ (le_refl _)
    intro p hp
    exact ⟨hhead p.1 (adjPairs_mem hp).1, hhead p.2 (adjPairs_mem hp).2⟩
  refine ⟨msfpLoop m pitch (adjPairs (w0 :: rest)) w0.min_spacing, ?_, hlow,
    lt_of_lt_of_le hpos hlow⟩
  simp only [Metal.min_spacing_from_pitch, htbl]

/-- C10 witness: the spec's example table at the non-positive pitch `-3`. -/
theorem msfp_total_and_positive_witness :
    ∃ s, metalA.min_spacing_from_pitch (-3) = some s ∧
      (⟨0, 1⟩ : WidthSpacingTuple).min_spacing ≤ s ∧ 0 < s :=
  msfp_total_and_positive metalA ⟨0, 1⟩ [⟨4, 2⟩, ⟨7, 3⟩] rfl
    metalA_valid (-3)

/-! ## Characterizing `WidthSpacingTuple.from_list` -/

theorem wstLE_trans : ∀ a b c : WidthSpacingTuple,
    wstLE a b = true → wstLE b c = true → wstLE a c = true := by
  intro a b c hab hbc
  simp only [wstLE, decide_eq_true_eq] at *
  exact le_trans hab hbc

theorem wstLE_total : ∀ a b : WidthSpacingTuple, (wstLE a b || wstLE b a) = true := by
  intro a b
  simp only [wstLE, Bool.or_eq_true, decide_eq_true_eq]
  exact le_total _ _

theorem convertAll_some (l : List (ℚ × ℚ)) (h : ∀ d ∈ l, 0 ≤ d.1 ∧ 0 < d.2) :
    convertAll l = some (l.map (fun d => ⟨d.1, d.2⟩)) := by
  induction l with
  | nil => rfl
  | cons d rest ih =>
    have hd := h d (List.mem_cons_self _ _)
    have hrest := ih (fun x hx => h x (List.mem_cons_of_mem _ hx))
    simp only [convertAll, WidthSpacingTuple.from_setting, if_pos hd, hrest, List.map_cons]

theorem convertAll_none (l : List (ℚ × ℚ)) (h : ¬ ∀ d ∈ l, 0 ≤ d.1 ∧ 0 < d.2) :
    convertAll l = none := by
  induction l with
  | nil => exact absurd (by simp) h
  | cons d rest ih =>
    simp only [convertAll]
    by_cases hd : 0 ≤ d.1 ∧ 0 < d.2
    · have hrest : ¬ ∀ x ∈ rest, 0 ≤ x.1 ∧ 0 < x.2 := by
        intro hr
        exact h (by
          intro x hx
          rcases List.mem_cons.mp hx with rfl | hx
          · exact hd
          · exact hr x hx)
      rw [ih hrest]
      simp [WidthSpacingTuple.from_setting, if_pos hd]
    · simp [WidthSpacingTuple.from_setting, if_neg hd]

theorem checkMono_iff_chain (s : ℚ) (l : List WidthSpacingTuple) :
    checkMonoSpacing s l = true ↔
      List.Chain (fun a b : ℚ => a ≤ b) s (l.map (fun w => w.min_spacing)) := by
  induction l generalizing s with
  | nil => simp [checkMonoSpacing]
  | cons w rest ih =>
    simp only [checkMonoSpacing, List.map_cons, List.chain_cons]
    split
    · rename_i h
      rw [ih]
      simp [h]
    · rename_i h
      simp [h]

theorem chain_zero_iff_chain' {l : List WidthSpacingTuple}
    (hpos : ∀ w ∈ l, 0 < w.min_spacing) :
    List.Chain (fun a b : ℚ => a ≤ b) 0 (l.map (fun w => w.min_spacing)) ↔
      List.Chain' (fun a b : WidthSpacingTuple => a.min_spacing ≤ b.min_spacing) l := by
  cases l with
  | nil => simp
  | cons w rest =>
    rw [List.map_cons, List.chain_cons]
    have hw : (0 : ℚ) ≤ w.min_spacing := le_of_lt (hpos w (List.mem_cons_self _ _))
    constructor
    · intro h
      show List.Chain _ w rest
      exact (List.chain_map (fun x : WidthSpacingTuple => x.min_spacing)).mp h.2
    · intro h
      exact ⟨hw, (List.chain_map (fun x : WidthSpacingTuple => x.min_spacing)).mpr h⟩

/-- C2 counterexample: constructing a table from the EMPTY entry list does
not fail — `from_list([])` returns the empty table, with no emptiness
check anywhere in the source. -/
theorem from_list_nil_cex : WidthSpacingTuple.from_list [] = some [] := by
  norm_num [WidthSpacingTuple.from_list, convertAll, checkMonoSpacing]

/-- C2 amended: `from_list` fails exactly when some entry has
`width_at_least < 0` or `min_spacing <= 0`, or all entries are well-formed
but, after the stable sort by `width_at_least`, the `min_spacing` sequence
is not non-decreasing; on success it returns the entries sorted ascending
by `width_at_least` (a permutation of the converted input with
non-decreasing `min_spacing`).  An empty input succeeds with the empty
table. -/
theorem from_list_characterization (l : List (ℚ × ℚ)) :
    (WidthSpacingTuple.from_list l = none ↔
      (∃ d ∈ l, d.1 < 0 ∨ d.2 ≤ 0) ∨
        ((∀ d ∈ l, 0 ≤ d.1 ∧ 0 < d.2) ∧
          ¬ List.Chain' (fun a b : WidthSpacingTuple => a.min_spacing ≤ b.min_spacing)
            ((l.map (fun d => ⟨d.1, d.2⟩)).mergeSort wstLE))) ∧
    (∀ out, WidthSpacingTuple.from_list l = some out →
      List.Sorted (fun a b : WidthSpacingTuple => a.width_at_least ≤ b.width_at_least) out ∧
        out.Perm (l.map (fun d => ⟨d.1, d.2⟩)) ∧
        List.Chain' (fun a b : WidthSpacingTuple => a.min_spacing ≤ b.min_spacing) out) := by
  by_cases hgood : ∀ d ∈ l, 0 ≤ d.1 ∧ 0 < d.2
  · have hconv := convertAll_some l hgood
    have hperm := List.mergeSort_perm (l.map (fun d : ℚ × ℚ => (⟨d.1, d.2⟩ : WidthSpacingTuple))) wstLE
    have hpos : ∀ w ∈ (l.map (fun d : ℚ × ℚ => (⟨d.1, d.2⟩ : WidthSpacingTuple))).mergeSort wstLE,
        0 < w.min_spacing := by
      intro w hw
      obtain ⟨d, hd, rfl⟩ := List.mem_map.mp (hperm.subset hw)
      exact (hgood d hd).2
    have hfl : WidthSpacingTuple.from_list l =
        (if checkMonoSpacing 0 ((l.map (fun d : ℚ × ℚ => (⟨d.1, d.2⟩ : WidthSpacingTuple))).mergeSort wstLE) then
          some ((l.map (fun d : ℚ × ℚ => (⟨d.1, d.2⟩ : WidthSpacingTuple))).mergeSort wstLE)
        else none) := by
      simp only [WidthSpacingTuple.from_list, hconv]
    have hchain := (checkMono_iff_chain 0 _).trans (chain_zero_iff_chain' hpos)
    constructor
    · rw [hfl]
      split
      · rename_i hck
        simp only [reduceCtorEq, false_iff]
        push_neg
        exact ⟨fun d hd => hgood d hd, fun _ => hchain.mp hck⟩
      · rename_i hck
        simp only [true_iff]
        exact Or.inr ⟨hgood, fun hc => hck (hchain.mpr hc)⟩
    · intro out hout
      rw [hfl] at hout
      split at hout
      · rename_i hck
        injection hout with h
        subst h
        refine ⟨?_, hperm, hchain.mp hck⟩
        have hs := List.sorted_mergeSort wstLE_trans wstLE_total
          (l.map (fun d : ℚ × ℚ => (⟨d.1, d.2⟩ : WidthSpacingTuple)))
        exact hs.imp (fun h => by simpa [wstLE, decide_eq_true_eq] using h)
      · exact absurd hout (by simp)
  · have hconv := convertAll_none l hgood
    have hfl : WidthSpacingTuple.from_list l = none := by
      simp only [WidthSpacingTuple.from_list, hconv]
    constructor
    · rw [hfl]
      simp only [true_iff]
      left
      push_neg at hgood
      obtain ⟨d, hd, hbad⟩ := hgood
      by_cases h1 : 0 ≤ d.1
      · exact ⟨d, hd, Or.inr (hbad h1)⟩
      · exact ⟨d, hd, Or.inl (not_le.mp h1)⟩
    · intro out hout
      rw [hfl] at hout
      exact absurd hout (by simp)

/-- C2 witness: the unsorted well-formed input `[(5,2),(0,1)]` succeeds and
returns the entries sorted ascending by `width_at_least`, a permutation of
the converted input with non-decreasing `min_spacing`. -/
theorem from_list_characterization_witness :
    List.Sorted (fun a b : WidthSpacingTuple => a.width_at_least ≤ b.width_at_least)
        [⟨0, 1⟩, ⟨5, 2⟩] ∧
      List.Perm [(⟨0, 1⟩ : WidthSpacingTuple), ⟨5, 2⟩]
        ([((5 : ℚ), (2 : ℚ)), ((0 : ℚ), (1 : ℚ))].map
          (fun d => (⟨d.1, d.2⟩ : WidthSpacingTuple))) ∧
      List.Chain' (fun a b : WidthSpacingTuple => a.min_spacing ≤ b.min_spacing)
        [⟨0, 1⟩, ⟨5, 2⟩] :=
  (from_list_characterization [((5 : ℚ), (2 : ℚ)), ((0 : ℚ), (1 : ℚ))]).2
    [⟨0, 1⟩, ⟨5, 2⟩]
    (by norm_num [WidthSpacingTuple.from_list, convertAll, checkMonoSpacing,
      WidthSpacingTuple.from_setting, List.mergeSort, wstLE])

/-- C3 counterexample: for the valid table `[(0, 0.0509)]` (spacing not on
the grid), `min_width 0.1`, `pitch 0.2`, `tracks = 1`, the TWT solver
succeeds with width `0.198` and spacing `0.0509`, but
`width + 2*spacing = 0.2998` differs from the snapped budget `0.3`. -/
theorem twt_budget_cex :
    validTable metalC.power_strap_widths_and_spacings ∧
      metalC.get_width_spacing_start_twt 1 =
        some (99 / 500, 509 / 10000, 101 / 1000) ∧
      ¬((99 : ℚ) / 500 + 2 * (509 / 10000) =
          metalC.snap ((((1 : ℤ) : ℚ) + 1) * metalC.pitch - metalC.min_width)) := by
  refine ⟨metalC_valid, ?_, ?_⟩ <;>
    norm_num [Metal.get_width_spacing_start_twt, twtLoop, adjPairs, Metal.snap,
      Metal.grid_unit, gridUnit, roundHalfToEven, truncInt, metalC]

/-- C3 amended: for every Metal with a valid table whose `min_spacing`
values lie on the manufacturing grid, whenever
`get_width_spacing_start_twt tracks` succeeds with `(width, spacing,
start)`, then `width + 2*spacing` equals the snapped budget
`snap((tracks+1)*pitch - min_width)`, `width` is an even multiple of the
grid unit, and `start = snap(min_width/2 + spacing)`.  (Without the
grid-alignment hypothesis the budget equation can fail; see the
counterexample.)  In particular for `min_width=0.1`, `pitch=0.2`, table
`[(0,0.05)]`, `tracks=1` the budget equals `0.3` exactly (witness). -/
theorem twt_geometry (m : Metal) (tracks : ℤ) (w s st : ℚ)
    (hv : validTable m.power_strap_widths_and_spacings)
    (halign : ∀ e ∈ m.power_strap_widths_and_spacings, onGrid e.min_spacing)
    (hres : m.get_width_spacing_start_twt tracks = some (w, s, st)) :
    w + 2 * s = m.snap (((tracks : ℚ) + 1) * m.pitch - m.min_width) ∧
      evenGrid w ∧ st = m.snap (m.min_width / 2 + s) := by
  cases htbl : m.power_strap_widths_and_spacings with
  | nil => exact absurd htbl hv.1
  | cons w0 rest =>
    rw [htbl] at halign
    simp only [Metal.get_width_spacing_start_twt, htbl] at hres
    split at hres
    · rename_i h1
      split at hres
      · rename_i h2
        split at hres
        · rename_i h3
          rw [Option.some_inj, Prod.mk.injEq, Prod.mk.injEq] at hres
          obtain ⟨rfl, rfl, rfl⟩ := hres
          have hinv := twtLoop_inv m
            (m.snap (((tracks : ℚ) + 1) * m.pitch - m.min_width))
            (adjPairs (w0 :: rest))
            (fun p hp => halign p.2 (adjPairs_mem hp).2)
            (m.snap ((m.snap (((tracks : ℚ) + 1) * m.pitch - m.min_width)) - w0.min_spacing * 2),
              w0.min_spacing)
            ⟨onGrid_snap _ _, halign w0 (List.mem_cons_self _ _), Or.inl rfl⟩
          obtain ⟨hwg, hsg, hcase⟩ := hinv
          have hs2w : evenGrid (m.snap (((tracks : ℚ) + 1) * m.pitch - m.min_width)) :=
            evenGrid_of_assert (onGrid_snap _ _) h1
          have hweven := evenGrid_of_assert hwg h3
          refine ⟨?_, hweven, rfl⟩
          obtain ⟨j, hj⟩ := hs2w
          rcases hcase with hP1 | hP2
          · obtain ⟨c, hc⟩ := hsg
            have hog : onGrid ((m.snap (((tracks : ℚ) + 1) * m.pitch - m.min_width)) -
                (twtLoop m (m.snap (((tracks : ℚ) + 1) * m.pitch - m.min_width))
                  (adjPairs (w0 :: rest))
                  (m.snap ((m.snap (((tracks : ℚ) + 1) * m.pitch - m.min_width)) - w0.min_spacing * 2),
                    w0.min_spacing)).2 * 2) :=
              ⟨2 * j - 2 * c, by push_cast at hj hc ⊢; linarith⟩
            rw [m.snap_onGrid hog] at hP1
            rw [hP1]
            ring
          · obtain ⟨a, ha⟩ := hweven
            have hog : onGrid (((m.snap (((tracks : ℚ) + 1) * m.pitch - m.min_width)) -
                (twtLoop m (m.snap (((tracks : ℚ) + 1) * m.pitch - m.min_width))
                  (adjPairs (w0 :: rest))
                  (m.snap ((m.snap (((tracks : ℚ) + 1) * m.pitch - m.min_width)) - w0.min_spacing * 2),
                    w0.min_spacing)).1) / 2) :=
              ⟨j - a, by push_cast at hj ha ⊢; linarith⟩
            rw [m.snap_onGrid hog] at hP2
            rw [hP2]
            ring
        · exact absurd hres (by simp)
      · exact absurd hres (by simp)
    · exact absurd hres (by simp)

/-- C3 witness: for `min_width=0.1`, `pitch=0.2`, table `[(0,0.05)]`,
`tracks=1`, the TWT result `(0.2, 0.05, 0.1)` satisfies
`width + 2*spacing = snap(0.4 - 0.1) = 0.3` with an even-grid width. -/
theorem twt_geometry_witness :
    (1 : ℚ) / 5 + 2 * (1 / 20) =
        metalB.snap ((((1 : ℤ) : ℚ) + 1) * metalB.pitch - metalB.min_width) ∧
      evenGrid ((1 : ℚ) / 5) ∧
      (1 : ℚ) / 10 = metalB.snap (metalB.min_width / 2 + 1 / 20) :=
  twt_geometry metalB 1 (1 / 5) (1 / 20) (1 / 10) metalB_valid
    (by
      intro e he
      simp only [metalB] at he
      rw [List.mem_singleton] at he
      subst he
      exact ⟨50, by norm_num [gridUnit]⟩)
    (by
      norm_num [Metal.get_width_spacing_start_twt, twtLoop, adjPairs, Metal.snap,
        Metal.grid_unit, gridUnit, roundHalfToEven, truncInt, metalB])

/-- C4: with `force_even = true`, `get_width_spacing_start_twwt` never
returns a width on an odd grid count; and whenever the unforced
(`force_even = false`) call returns an odd-grid width, the forced call
returns that width minus one grid unit and that start plus one grid unit
(same spacing). -/
theorem twwt_force_even (m : Metal) (tracks : ℤ) :
    (∀ w s st, m.get_width_spacing_start_twwt tracks true = some (w, s, st) →
      evenGrid w) ∧
    (∀ w s st, m.get_width_spacing_start_twwt tracks false = some (w, s, st) →
      oddGrid w →
      m.get_width_spacing_start_twwt tracks true =
        some (w - gridUnit, s, st + gridUnit)) := by
  cases htbl : m.power_strap_widths_and_spacings with
  | nil =>
    constructor <;> intro w s st hres <;>
      simp [Metal.get_width_spacing_start_twwt, htbl] at hres
  | cons w0 rest =>
    have hT1 : onGrid (twwtLoop m (m.snap ((2 * (tracks : ℚ) + 1) * m.pitch - m.min_width))
        (adjPairs (w0 :: rest))
        (m.snap ((m.snap ((2 * (tracks : ℚ) + 1) * m.pitch - m.min_width) - w0.min_spacing * 3) / 2),
          w0.min_spacing)).1 :=
      twwtLoop_width_onGrid _ _ _ _ (onGrid_snap _ _)
    obtain ⟨k, hk⟩ := hT1
    constructor
    · intro w s st hres
      simp only [Metal.get_width_spacing_start_twwt, htbl] at hres
      split at hres
      · rename_i h2
        split at hres
        · rename_i hc
          rw [Option.some_inj, Prod.mk.injEq, Prod.mk.injEq] at hres
          obtain ⟨rfl, rfl, rfl⟩ := hres
          have hk1 : k % 2 = 1 := by
            have := hc.2
            rwa [oddGrid_truncInt hk] at this
          obtain ⟨r, hr⟩ := Int.odd_iff.mpr hk1
          subst hr
          have hsub : onGrid ((twwtLoop m (m.snap ((2 * (tracks : ℚ) + 1) * m.pitch - m.min_width))
              (adjPairs (w0 :: rest))
              (m.snap ((m.snap ((2 * (tracks : ℚ) + 1) * m.pitch - m.min_width) - w0.min_spacing * 3) / 2),
                w0.min_spacing)).1 - m.grid_unit) :=
            ⟨2 * r, by rw [hk, Metal.grid_unit_eq]; push_cast; ring⟩
          rw [m.snap_onGrid hsub]
          exact ⟨r, by rw [hk, Metal.grid_unit_eq]; push_cast; ring⟩
        · rename_i hc
          rw [Option.some_inj, Prod.mk.injEq, Prod.mk.injEq] at hres
          obtain ⟨rfl, rfl, rfl⟩ := hres
          have hk0 : k % 2 = 0 := by
            rcases Int.emod_two_eq k with h | h
            · exact h
            · exact absurd ⟨by trivial, by rwa [oddGrid_truncInt hk]⟩ hc
          obtain ⟨r, hr⟩ := Int.even_iff.mpr hk0
          exact ⟨r, by rw [hk, hr]; push_cast; ring⟩
      · exact absurd hres (by simp)
    · intro w s st hres hodd
      simp only [Metal.get_width_spacing_start_twwt, htbl] at hres
      split at hres
      · rename_i h2
        rw [if_neg (by simp)] at hres
        rw [Option.some_inj, Prod.mk.injEq, Prod.mk.injEq] at hres
        obtain ⟨rfl, rfl, rfl⟩ := hres
        obtain ⟨r, hr⟩ := hodd
        have hk1 : truncInt ((twwtLoop m (m.snap ((2 * (tracks : ℚ) + 1) * m.pitch - m.min_width))
            (adjPairs (w0 :: rest))
            (m.snap ((m.snap ((2 * (tracks : ℚ) + 1) * m.pitch - m.min_width) - w0.min_spacing * 3) / 2),
              w0.min_spacing)).1 / m.grid_unit) % 2 = 1 := by
          rw [oddGrid_truncInt hr]
          omega
        simp only [Metal.get_width_spacing_start_twwt, htbl]
        rw [if_pos h2, if_pos ⟨by trivial, hk1⟩]
        have ha : onGrid ((twwtLoop m (m.snap ((2 * (tracks : ℚ) + 1) * m.pitch - m.min_width))
            (adjPairs (w0 :: rest))
            (m.snap ((m.snap ((2 * (tracks : ℚ) + 1) * m.pitch - m.min_width) - w0.min_spacing * 3) / 2),
              w0.min_spacing)).1 - m.grid_unit) :=
          ⟨2 * r + 1 - 1, by rw [hr, Metal.grid_unit_eq]; push_cast; ring⟩
        have hb : onGrid (m.snap (m.min_width / 2 +
            (twwtLoop m (m.snap ((2 * (tracks : ℚ) + 1) * m.pitch - m.min_width))
              (adjPairs (w0 :: rest))
              (m.snap ((m.snap ((2 * (tracks : ℚ) + 1) * m.pitch - m.min_width) - w0.min_spacing * 3) / 2),
                w0.min_spacing)).2) + m.grid_unit) :=
          onGrid_add (onGrid_snap _ _) ⟨1, by rw [Metal.grid_unit_eq]; push_cast; ring⟩
        rw [m.snap_onGrid ha, m.snap_onGrid hb, Metal.grid_unit_eq]
      · exact absurd hres (by simp)

/-- C4 witness: for `metalB` (`min_width=0.1`, `pitch=0.2`, table
`[(0,0.05)]`) at `tracks=1` the unforced width `0.175` is odd-grid; the
forced call returns an even-grid width `0.174 = 0.175 - grid_unit` with
start `0.101 = 0.1 + grid_unit`. -/
theorem twwt_force_even_witness :
    evenGrid ((87 : ℚ) / 500) ∧
      metalB.get_width_spacing_start_twwt 1 true =
        some (7 / 40 - gridUnit, 1 / 20, 1 / 10 + gridUnit) :=
  ⟨(twwt_force_even metalB 1).1 (87 / 500) (1 / 20) (101 / 1000)
      (by norm_num [Metal.get_width_spacing_start_twwt, twwtLoop, adjPairs, Metal.snap,
        Metal.grid_unit, gridUnit, roundHalfToEven, truncInt, metalB]),
    (twwt_force_even metalB 1).2 (7 / 40) (1 / 20) (1 / 10)
      (by norm_num [Metal.get_width_spacing_start_twwt, twwtLoop, adjPairs, Metal.snap,
        Metal.grid_unit, gridUnit, roundHalfToEven, truncInt, metalB])
      ⟨87, by norm_num [gridUnit]⟩⟩

/-- C9: whenever the unforced TWWT call succeeds, the forced call succeeds
with the same spacing component (`force_even` can only change width and
start), and if the unforced width is already an even grid multiple the two
calls return identical triples. -/
theorem twwt_frame (m : Metal) (tracks : ℤ) (w s st : ℚ)
    (hres : m.get_width_spacing_start_twwt tracks false = some (w, s, st)) :
    (∃ w' st', m.get_width_spacing_start_twwt tracks true = some (w', s, st')) ∧
      (evenGrid w → m.get_width_spacing_start_twwt tracks true = some (w, s, st)) := by
  cases htbl : m.power_strap_widths_and_spacings with
  | nil => simp [Metal.get_width_spacing_start_twwt, htbl] at hres
  | cons w0 rest =>
    simp only [Metal.get_width_spacing_start_twwt, htbl] at hres
    split at hres
    · rename_i h2
      rw [if_neg (by simp)] at hres
      rw [Option.some_inj, Prod.mk.injEq, Prod.mk.injEq] at hres
      obtain ⟨rfl, rfl, rfl⟩ := hres
      constructor
      · simp only [Metal.get_width_spacing_start_twwt, htbl]
        rw [if_pos h2]
        split
        · exact ⟨_, _, rfl⟩
        · exact ⟨_, _, rfl⟩
      · intro heven
        obtain ⟨r, hr⟩ := heven
        simp only [Metal.get_width_spacing_start_twwt, htbl]
        rw [if_pos h2, if_neg (fun hcond => by
          have h1 := hcond.2
          rw [oddGrid_truncInt hr] at h1
          omega)]
    · exact absurd hres (by simp)

/-- C9 witness: for `metalB` at `tracks=1` (unforced result
`(0.175, 0.05, 0.1)`), the forced call keeps the spacing `0.05`. -/
theorem twwt_frame_witness :
    (∃ w' st', metalB.get_width_spacing_start_twwt 1 true = some (w', 1 / 20, st')) ∧
      (evenGrid ((7 : ℚ) / 40) →
        metalB.get_width_spacing_start_twwt 1 true = some (7 / 40, 1 / 20, 1 / 10)) :=
  twwt_frame metalB 1 (7 / 40) (1 / 20) (1 / 10)
    (by norm_num [Metal.get_width_spacing_start_twwt, twwtLoop, adjPairs, Metal.snap,
      Metal.grid_unit, gridUnit, roundHalfToEven, truncInt, metalB])
